import Mathlib

/-!
Shallow embedding of the lightnvm / dm-openssd FTL core, translated from the
C sources (drivers/vsl/vsl.c, drivers/md/dm-openssd-core.c,
drivers/md/dm-openssd.h, drivers/md/dm-openssd-mod.c and the GC / hint
files), together with proofs about the mapping tables, the garbage
collector, the allocator and the request entry points.
-/

/-! ## Compile-time constants (drivers/md/dm-openssd.h) -/

/-- The page size exposed to the operating system (dm-openssd.h). -/
def EXPOSED_PAGE_SIZE : Nat := 4096

/-- The size of the physical flash page (dm-openssd.h). -/
def FLASH_PAGE_SIZE : Nat := 4096

/-- `FLASH_PAGE_SIZE / EXPOSED_PAGE_SIZE` (dm-openssd.h); evaluates to 1. -/
def NR_HOST_PAGES_IN_FLASH_PAGE : Nat := FLASH_PAGE_SIZE / EXPOSED_PAGE_SIZE

/-- `EXPOSED_PAGE_SIZE / 512` (dm-openssd.h); evaluates to 8 sectors. -/
def NR_PHY_IN_LOG : Nat := EXPOSED_PAGE_SIZE / 512

/-- GC only runs while fewer than 1/10 of a pool's blocks are free
(src/unnamed/part_002). -/
def GC_LIMIT_INVERSE : Nat := 10

/-- `LTOP_EMPTY` is `(sector_t)-1` (dm-openssd.h `#define LTOP_EMPTY -1`,
sector_t is 64-bit). -/
def LTOP_EMPTY : Nat := 2 ^ 64 - 1

/-- Modelled from the spec: `LTOP_POISON`, the sentinel stored into stale
reverse-map entries by `nvm_update_map` (vsl.c). Its numeric value lives in
vsl's nvm.h, which is not among the sources; the spec only requires that
poisoned entries carry a sentinel that is not a valid page address, so any
value `≥ nr_pages` is faithful. -/
def LTOP_POISON : Nat := 2 ^ 64 - 2

/-! ## The vsl mapping-table state (drivers/vsl/vsl.c)

`struct nvm_addr` carries a physical address and an (optional) owning
block; blocks are referenced by their stable `id`.  A block's state, as far
as the mapping table is concerned, is its invalid-page bitmap and the
`nr_invalid_pages` counter. -/

structure VslAddr where
  addr : Nat
  block : Option Nat
deriving DecidableEq, Repr

structure VslBlock where
  invalid_pages : Nat → Bool
  nr_invalid_pages : Nat

structure VslStor where
  nr_pages : Nat
  nr_pages_per_blk : Nat
  trans_map : Nat → VslAddr
  rev_trans_map : Nat → Nat
  blocks : Nat → VslBlock

/-- The state produced by `vsl_stor_init` (vsl.c): every `trans_map` entry
has `addr = LTOP_EMPTY` and a zeroed (`NULL`) block pointer, every reverse
entry holds the `0xDEADBEEF` filler, and every block has a clear bitmap. -/
def vsl_stor_init (nr_pages nr_pages_per_blk : Nat) : VslStor where
  nr_pages := nr_pages
  nr_pages_per_blk := nr_pages_per_blk
  trans_map := fun _ => { addr := LTOP_EMPTY, block := none }
  rev_trans_map := fun _ => 0xDEADBEEF
  blocks := fun _ => { invalid_pages := fun _ => false, nr_invalid_pages := 0 }

/-- `invalidate_block_page` (vsl.c): mark the page offset of `p` invalid in
`p`'s block bitmap and bump that block's `nr_invalid_pages`.  The caller
guarantees `p->block` is non-null; the C `WARN_ON(test_and_set_bit(..))`
still sets the bit and increments, which is what this function does. -/
def invalidate_block_page (s : VslStor) (p : VslAddr) : VslStor :=
  match p.block with
  | none => s
  | some bid =>
    let b := s.blocks bid
    let page_offset := p.addr % s.nr_pages_per_blk
    { s with
      blocks := fun i =>
        if i = bid then
          { invalid_pages := fun j => if j = page_offset then true else b.invalid_pages j
            nr_invalid_pages := b.nr_invalid_pages + 1 }
        else s.blocks i }

/-- `nvm_update_map` (vsl.c): if the prior `trans_map[l_addr]` has a block,
invalidate its page and poison its reverse entry; then install the new
forward and reverse entries.  The `BUG_ON` range checks become hypotheses of
the theorems below. -/
def nvm_update_map (s : VslStor) (l_addr : Nat) (p : VslAddr) : VslStor :=
  let gp := s.trans_map l_addr
  let s1 :=
    if gp.block.isSome then
      let s' := invalidate_block_page s gp
      { s' with
        rev_trans_map := fun a => if a = gp.addr then LTOP_POISON else s'.rev_trans_map a }
    else s
  { s1 with
    trans_map := fun a => if a = l_addr then { addr := p.addr, block := p.block } else s1.trans_map a
    rev_trans_map := fun a => if a = p.addr then l_addr else s1.rev_trans_map a }

/-- A physical address is in use when some in-range logical address with a
non-empty block maps to it. -/
def pa_in_use (s : VslStor) (pa : Nat) : Prop :=
  ∃ l, l < s.nr_pages ∧ (s.trans_map l).block.isSome ∧ (s.trans_map l).addr = pa

instance (s : VslStor) (pa : Nat) : Decidable (pa_in_use s pa) := by
  unfold pa_in_use; infer_instance

/-- Forward half of the mapping bijection: every mapped logical address is
the reverse image of its physical address. -/
def map_inv_fwd (s : VslStor) : Prop :=
  ∀ l, l < s.nr_pages → (s.trans_map l).block.isSome →
    s.rev_trans_map (s.trans_map l).addr = l

/-- Backward half: every in-use physical address round-trips through the
reverse map. -/
def map_inv_bwd (s : VslStor) : Prop :=
  ∀ pa, pa < s.nr_pages → pa_in_use s pa →
    (s.trans_map (s.rev_trans_map pa)).addr = pa

/-- The quiescent mapping bijection invariant. -/
def mapping_inv (s : VslStor) : Prop := map_inv_fwd s ∧ map_inv_bwd s

instance (s : VslStor) : Decidable (map_inv_fwd s) := by
  unfold map_inv_fwd; infer_instance

instance (s : VslStor) : Decidable (map_inv_bwd s) := by
  unfold map_inv_bwd; infer_instance

instance (s : VslStor) : Decidable (mapping_inv s) := by
  unfold mapping_inv; infer_instance

/-! ### Pointwise description of `nvm_update_map` -/

lemma update_map_nr_pages (s : VslStor) (l : Nat) (p : VslAddr) :
    (nvm_update_map s l p).nr_pages = s.nr_pages := by
  unfold nvm_update_map invalidate_block_page
  cases h : (s.trans_map l).block <;> simp [h]

lemma update_map_trans_self (s : VslStor) (l : Nat) (p : VslAddr) :
    (nvm_update_map s l p).trans_map l = { addr := p.addr, block := p.block } := by
  unfold nvm_update_map
  simp

lemma update_map_trans_other (s : VslStor) (l : Nat) (p : VslAddr) (a : Nat) (ha : a ≠ l) :
    (nvm_update_map s l p).trans_map a = s.trans_map a := by
  unfold nvm_update_map invalidate_block_page
  cases h : (s.trans_map l).block <;> simp [h, ha]

lemma update_map_rev_new (s : VslStor) (l : Nat) (p : VslAddr) :
    (nvm_update_map s l p).rev_trans_map p.addr = l := by
  unfold nvm_update_map
  simp

lemma update_map_rev_other (s : VslStor) (l : Nat) (p : VslAddr) (a : Nat) (ha : a ≠ p.addr) :
    (nvm_update_map s l p).rev_trans_map a =
      if (s.trans_map l).block.isSome ∧ a = (s.trans_map l).addr then LTOP_POISON
      else s.rev_trans_map a := by
  unfold nvm_update_map invalidate_block_page
  cases h : (s.trans_map l).block <;> simp [h, ha]

lemma update_map_blocks_of_old (s : VslStor) (l : Nat) (p : VslAddr) (bid : Nat)
    (h : (s.trans_map l).block = some bid) :
    (nvm_update_map s l p).blocks =
      fun i =>
        if i = bid then
          { invalid_pages := fun j =>
              if j = (s.trans_map l).addr % s.nr_pages_per_blk then true
              else (s.blocks bid).invalid_pages j
            nr_invalid_pages := (s.blocks bid).nr_invalid_pages + 1 }
        else s.blocks i := by
  unfold nvm_update_map invalidate_block_page
  simp [h]

/-- The forward half of the bijection implies the backward half. -/
lemma map_inv_fwd_imp_bwd (s : VslStor) (hfwd : map_inv_fwd s) : map_inv_bwd s := by
  rintro pa _hpa ⟨L, hL, hblk, haddr⟩
  have hrev := hfwd L hL hblk
  rw [haddr] at hrev
  rw [hrev, haddr]

/-- `nvm_update_map` with a fresh in-range physical address preserves the
forward half of the bijection. -/
lemma update_map_preserves_fwd (s : VslStor) (l : Nat) (p : VslAddr)
    (hfwd : map_inv_fwd s) (hl : l < s.nr_pages) (hfresh : ¬ pa_in_use s p.addr) :
    map_inv_fwd (nvm_update_map s l p) := by
  intro L hL hblk
  rw [update_map_nr_pages] at hL
  by_cases hLl : L = l
  · subst hLl
    rw [update_map_trans_self]
    exact update_map_rev_new s L p
  · rw [update_map_trans_other s l p L hLl] at hblk ⊢
    have hAp : (s.trans_map L).addr ≠ p.addr := by
      intro he
      exact hfresh ⟨L, hL, hblk, he⟩
    rw [update_map_rev_other s l p _ hAp]
    have hA := hfwd L hL hblk
    by_cases hg : (s.trans_map l).block.isSome ∧ (s.trans_map L).addr = (s.trans_map l).addr
    · obtain ⟨hsome, hAeq⟩ := hg
      have h1 := hfwd l hl hsome
      rw [← hAeq] at h1
      rw [hA] at h1
      exact absurd h1 hLl
    · simp only [hg, if_false]
      exact hA

/-- C1: at every quiescent state reachable by map updates the mapping is a
bijection — the freshly initialised store satisfies it, and every
`nvm_update_map` call with an in-range logical address and a fresh in-range
physical address preserves it: for every L whose primary entry has a
non-empty block, `reverse[primary[L].addr] = L`, and for every in-use P,
`primary[reverse[P]].addr = P`. -/
theorem C1_update_map_preserves_bijection (n k : Nat) :
    mapping_inv (vsl_stor_init n k) ∧
    ∀ (s : VslStor) (l : Nat) (p : VslAddr),
      mapping_inv s → l < s.nr_pages → p.addr < s.nr_pages → ¬ pa_in_use s p.addr →
      mapping_inv (nvm_update_map s l p) := by
  constructor
  · constructor
    · intro l _ hblk
      simp [vsl_stor_init] at hblk
    · rintro pa _ ⟨L, _, hblk, _⟩
      simp [vsl_stor_init] at hblk
  · intro s l p hinv hl _hp hfresh
    have hfwd := update_map_preserves_fwd s l p hinv.1 hl hfresh
    exact ⟨hfwd, map_inv_fwd_imp_bwd _ hfwd⟩

/-- Witness for C1 at a concrete store: the invariant holds initially and
after mapping L=0 to the fresh physical page 1 of block 0. -/
theorem C1_witness :
    mapping_inv (nvm_update_map (vsl_stor_init 4 4) 0 { addr := 1, block := some 0 }) :=
  (C1_update_map_preserves_bijection 4 4).2 (vsl_stor_init 4 4) 0 { addr := 1, block := some 0 }
    ((C1_update_map_preserves_bijection 4 4).1) (by decide) (by decide) (by decide)

/-- C2: for in-range L and P, `nvm_update_map` with a non-empty prior entry
sets the old page's offset bit in the old block's bitmap (the bit having
been clear before), increments that block's `nr_invalid_pages` by one,
poisons `reverse[old addr]`, and then installs `primary[L] = (P, block')`
and `reverse[P] = L`. -/
theorem C2_update_map_effect (s : VslStor) (l : Nat) (p : VslAddr) (bid : Nat)
    (hl : l < s.nr_pages) (hp : p.addr < s.nr_pages)
    (hblk : (s.trans_map l).block = some bid)
    (hold : (s.trans_map l).addr ≠ p.addr)
    (hbit : (s.blocks bid).invalid_pages ((s.trans_map l).addr % s.nr_pages_per_blk) = false) :
    ((nvm_update_map s l p).blocks bid).invalid_pages
        ((s.trans_map l).addr % s.nr_pages_per_blk) = true ∧
    ((nvm_update_map s l p).blocks bid).nr_invalid_pages
        = (s.blocks bid).nr_invalid_pages + 1 ∧
    (nvm_update_map s l p).rev_trans_map (s.trans_map l).addr = LTOP_POISON ∧
    (nvm_update_map s l p).trans_map l = { addr := p.addr, block := p.block } ∧
    (nvm_update_map s l p).rev_trans_map p.addr = l := by
  have hblocks := update_map_blocks_of_old s l p bid hblk
  refine ⟨?_, ?_, ?_, update_map_trans_self s l p, update_map_rev_new s l p⟩
  · rw [hblocks]
    simp
  · rw [hblocks]
    simp
  · rw [update_map_rev_other s l p _ hold]
    simp [hblk]

/-- A concrete store where L=0 is currently mapped to page 2 of block 0. -/
def C2_demo_stor : VslStor where
  nr_pages := 8
  nr_pages_per_blk := 4
  trans_map := fun a =>
    if a = 0 then { addr := 2, block := some 0 } else { addr := LTOP_EMPTY, block := none }
  rev_trans_map := fun a => if a = 2 then 0 else 0xDEADBEEF
  blocks := fun _ => { invalid_pages := fun _ => false, nr_invalid_pages := 0 }

/-- Witness for C2 on a concrete store: remapping L=0 from page 2 of
block 0 to page 5 of block 1. -/
theorem C2_witness :
    ((nvm_update_map C2_demo_stor 0 { addr := 5, block := some 1 }).blocks 0).invalid_pages 2
        = true ∧
    ((nvm_update_map C2_demo_stor 0 { addr := 5, block := some 1 }).blocks 0).nr_invalid_pages
        = (C2_demo_stor.blocks 0).nr_invalid_pages + 1 ∧
    (nvm_update_map C2_demo_stor 0 { addr := 5, block := some 1 }).rev_trans_map 2 = LTOP_POISON ∧
    (nvm_update_map C2_demo_stor 0 { addr := 5, block := some 1 }).trans_map 0
        = { addr := 5, block := some 1 } ∧
    (nvm_update_map C2_demo_stor 0 { addr := 5, block := some 1 }).rev_trans_map 5 = 0 :=
  C2_update_map_effect C2_demo_stor 0 { addr := 5, block := some 1 } 0
    (by decide) (by decide) (by decide) (by decide) (by decide)

/-! ## The dm-openssd mapping state (drivers/md/dm-openssd-core.c)

The dm-openssd variant keeps the same `trans_map` / `rev_trans_map`
shape; page offsets within a block are taken modulo
`nr_host_pages_in_blk` and there is no reverse-map poisoning. -/

structure OsState where
  nr_pages : Nat
  nr_host_pages_in_blk : Nat
  trans_map : Nat → VslAddr
  rev_trans_map : Nat → Nat
  blocks : Nat → VslBlock

/-- `openssd_update_map_generic` (dm-openssd-core.c).  The early
out-of-range return comes first; the two `BUG_ON`s that follow test the
same conditions and are modelled as the `none` result, the invalidation of
the old page and the installation of the new entries as the state in
`some`. -/
def openssd_update_map_generic (s : OsState) (l_addr p_addr : Nat) (p_block : Option Nat) :
    Option OsState :=
  if l_addr ≥ s.nr_pages ∨ p_addr ≥ s.nr_pages then some s
  else if l_addr ≥ s.nr_pages then none
  else if p_addr ≥ s.nr_pages then none
  else
    let l := s.trans_map l_addr
    let s1 :=
      match l.block with
      | none => s
      | some bid =>
        let b := s.blocks bid
        let page_offset := l.addr % s.nr_host_pages_in_blk
        { s with
          blocks := fun i =>
            if i = bid then
              { invalid_pages := fun j => if j = page_offset then true else b.invalid_pages j
                nr_invalid_pages := b.nr_invalid_pages + 1 }
            else s.blocks i }
    some { s1 with
           trans_map := fun a =>
             if a = l_addr then { addr := p_addr, block := p_block } else s1.trans_map a
           rev_trans_map := fun a => if a = p_addr then l_addr else s1.rev_trans_map a }

/-- C10: calling `openssd_update_map_generic` with `l_addr ≥ nr_pages` or
`p_addr ≥ nr_pages` returns immediately with the state unchanged (primary
map, reverse map, and every block untouched), and the `BUG_ON` checks that
follow the early return can never fire. -/
theorem C10_update_map_out_of_range_noop (s : OsState) (l_addr p_addr : Nat)
    (p_block : Option Nat) (h : l_addr ≥ s.nr_pages ∨ p_addr ≥ s.nr_pages) :
    openssd_update_map_generic s l_addr p_addr p_block = some s := by
  unfold openssd_update_map_generic
  simp [h]

/-- A small concrete dm-openssd state with 8 pages. -/
def os_demo_state : OsState where
  nr_pages := 8
  nr_host_pages_in_blk := 4
  trans_map := fun a =>
    if a = 1 then { addr := 3, block := some 0 } else { addr := LTOP_EMPTY, block := none }
  rev_trans_map := fun a => if a = 3 then 1 else 0xDEADBEEF
  blocks := fun _ => { invalid_pages := fun _ => false, nr_invalid_pages := 0 }

/-- Witness for C10: an update at the out-of-range logical address 9 leaves
the concrete state untouched. -/
theorem C10_witness :
    openssd_update_map_generic os_demo_state 9 3 (some 0) = some os_demo_state :=
  C10_update_map_out_of_range_noop os_demo_state 9 3 (some 0) (by decide)

/-! ## Read path (dm-openssd-core.c) -/

/-- Outcome of `openssd_read_bio_generic`. -/
inductive ReadOutcome where
  | zeroFilled
  | buffered
  | submitted
deriving DecidableEq, Repr

/-- `openssd_lookup_ltop` (dm-openssd-core.c): return the primary
translation entry (ref-counting and the GC spin-wait have no effect on the
returned value). -/
def openssd_lookup_ltop (s : OsState) (l_addr : Nat) : VslAddr :=
  s.trans_map l_addr

/-- `openssd_read_bio_generic` (dm-openssd-core.c): look up L, rewrite the
sector to the physical address, and either zero-fill-and-complete (empty
entry), serve from the append-point buffer (only possible when a flash page
holds several host pages), or submit to the device.  `buffered_hit`
abstracts the scan in `openssd_handle_buffered_read`; with
`NR_HOST_PAGES_IN_FLASH_PAGE = 1` that branch is dead code. -/
def openssd_read_bio_generic (s : OsState) (bi_sector : Nat) (buffered_hit : Bool) :
    ReadOutcome × Nat :=
  let l_addr := bi_sector / NR_PHY_IN_LOG
  let phys := openssd_lookup_ltop s l_addr
  let bi_sector1 := phys.addr * NR_PHY_IN_LOG + bi_sector % NR_PHY_IN_LOG
  if phys.block.isNone then (ReadOutcome.zeroFilled, 0)
  else if NR_HOST_PAGES_IN_FLASH_PAGE > 1 && buffered_hit then (ReadOutcome.buffered, bi_sector1)
  else (ReadOutcome.submitted, bi_sector1)

/-- C5: a read of a never-written L (empty block entry) completes with a
zero-filled buffer and no device submission; a read of a mapped L rewrites
the request's sector to the mapped physical address and submits it. -/
theorem C5_read_unwritten_vs_mapped (s : OsState) (sector : Nat) (buffered_hit : Bool)
    (hrange : sector / NR_PHY_IN_LOG < s.nr_pages) :
    ((s.trans_map (sector / NR_PHY_IN_LOG)).block = none →
      openssd_read_bio_generic s sector buffered_hit = (ReadOutcome.zeroFilled, 0)) ∧
    (∀ b, (s.trans_map (sector / NR_PHY_IN_LOG)).block = some b →
      openssd_read_bio_generic s sector buffered_hit =
        (ReadOutcome.submitted,
         (s.trans_map (sector / NR_PHY_IN_LOG)).addr * NR_PHY_IN_LOG + sector % NR_PHY_IN_LOG)) := by
  constructor
  · intro h
    unfold openssd_read_bio_generic openssd_lookup_ltop
    simp [h]
  · intro b h
    unfold openssd_read_bio_generic openssd_lookup_ltop
    simp [h]
    intro hgt
    exact absurd hgt (by decide)

/-- Witness for C5 on the concrete state: L=0 was never written, L=1 maps
to physical page 3. -/
theorem C5_witness :
    openssd_read_bio_generic os_demo_state 2 false = (ReadOutcome.zeroFilled, 0) ∧
    openssd_read_bio_generic os_demo_state 9 false = (ReadOutcome.submitted, 25) :=
  ⟨(C5_read_unwritten_vs_mapped os_demo_state 2 false (by decide)).1 (by decide),
   (C5_read_unwritten_vs_mapped os_demo_state 9 false (by decide)).2 0 (by decide)⟩

/-! ## Block fullness (dm-openssd.h) -/

/-- `block_is_full` (dm-openssd.h): the block's write cursor
`(next_page, next_offset)` has consumed all `nr_host_pages_in_blk`
host pages (`nr_host_pages_in_blk = NR_HOST_PAGES_IN_FLASH_PAGE *
nr_pages_per_blk`, dm-openssd-mod.c). -/
def block_is_full (next_page next_offset nr_host_pages_in_blk : Nat) : Bool :=
  next_page * NR_HOST_PAGES_IN_FLASH_PAGE + next_offset == nr_host_pages_in_blk

/-- C6 counterexample: with K = 4 pages per block (H = 1) and write cursor
`next_page = 3, next_offset = 1`, `block_is_full` returns true although
`next_page·H ≠ K·H` — the claimed "full iff next_page == K" ignores
`next_offset`. -/
theorem C6_counterexample :
    block_is_full 3 1 (NR_HOST_PAGES_IN_FLASH_PAGE * 4) = true ∧
    ¬ 3 * NR_HOST_PAGES_IN_FLASH_PAGE = 4 * NR_HOST_PAGES_IN_FLASH_PAGE := by
  decide

/-- C6 (amended): `block_is_full` returns true iff
`next_page·H + next_offset = K·H`, i.e. the host-page write cursor, offset
included, has reached the end of the block. -/
theorem C6_block_is_full_amended (next_page next_offset K : Nat) :
    block_is_full next_page next_offset (NR_HOST_PAGES_IN_FLASH_PAGE * K) = true ↔
      next_page * NR_HOST_PAGES_IN_FLASH_PAGE + next_offset =
        K * NR_HOST_PAGES_IN_FLASH_PAGE := by
  unfold block_is_full
  simp [Nat.mul_comm]

/-! ## Latency-mode lookup (src/unnamed/part_001) -/

/-- Which map an FTL lookup served its result from. -/
inductive LookupSource where
  | primary
  | shadow
deriving DecidableEq, Repr

/-- The state consulted by `openssd_latency_lookup_ltop`: the primary and
shadow translation maps and the per-pool `is_active` gates. -/
structure LatencyState where
  nr_pages : Nat
  nr_pools : Nat
  trans_map : Nat → VslAddr
  shadow_map : Nat → VslAddr
  pool_is_active : Nat → Bool

/-- `openssd_latency_lookup_ltop` (src/unnamed/part_001): if the shadow
entry is empty, read the primary; otherwise read the shadow exactly when
the pool holding the primary mapping is active, and the primary when it is
not. -/
def openssd_latency_lookup_ltop (s : LatencyState) (logical_addr : Nat) :
    LookupSource × VslAddr :=
  if (s.shadow_map logical_addr).addr = LTOP_EMPTY then
    (LookupSource.primary, s.trans_map logical_addr)
  else
    let pool_idx := (s.trans_map logical_addr).addr / (s.nr_pages / s.nr_pools)
    if s.pool_is_active pool_idx then (LookupSource.shadow, s.shadow_map logical_addr)
    else (LookupSource.primary, s.trans_map logical_addr)

/-- A latency state where L=0 has a primary mapping, an empty shadow entry,
and its (only) pool is active. -/
def lat_demo_empty_shadow : LatencyState where
  nr_pages := 8
  nr_pools := 1
  trans_map := fun a =>
    if a = 0 then { addr := 0, block := some 0 } else { addr := LTOP_EMPTY, block := none }
  shadow_map := fun _ => { addr := LTOP_EMPTY, block := none }
  pool_is_active := fun _ => true

/-- C7 counterexample: the pool holding the primary mapping of L=0 is
active, yet the lookup returns the primary entry because the shadow entry
is empty — the claim's "returns the shadow whenever the pool is active"
omits the non-empty-shadow precondition. -/
theorem C7_counterexample :
    lat_demo_empty_shadow.pool_is_active
        ((lat_demo_empty_shadow.trans_map 0).addr /
          (lat_demo_empty_shadow.nr_pages / lat_demo_empty_shadow.nr_pools)) = true ∧
    (openssd_latency_lookup_ltop lat_demo_empty_shadow 0).1 = LookupSource.primary := by
  constructor
  · decide
  · decide

/-- C7 (amended): the latency lookup returns the shadow entry when the
shadow entry is non-empty and the pool holding the primary mapping is
active; in every other case (empty shadow, or inactive pool) it returns
the primary entry. -/
theorem C7_latency_lookup_amended (s : LatencyState) (l : Nat) :
    ((s.shadow_map l).addr = LTOP_EMPTY →
      openssd_latency_lookup_ltop s l = (LookupSource.primary, s.trans_map l)) ∧
    ((s.shadow_map l).addr ≠ LTOP_EMPTY →
      (s.pool_is_active ((s.trans_map l).addr / (s.nr_pages / s.nr_pools)) = true →
        openssd_latency_lookup_ltop s l = (LookupSource.shadow, s.shadow_map l)) ∧
      (s.pool_is_active ((s.trans_map l).addr / (s.nr_pages / s.nr_pools)) = false →
        openssd_latency_lookup_ltop s l = (LookupSource.primary, s.trans_map l))) := by
  unfold openssd_latency_lookup_ltop
  refine ⟨fun h => by simp [h], fun h => ⟨fun ha => by simp [h, ha], fun ha => by simp [h, ha]⟩⟩

/-- A latency state where the shadow entry of L=0 is populated and the
primary's pool is active. -/
def lat_demo_with_shadow : LatencyState where
  nr_pages := 8
  nr_pools := 2
  trans_map := fun a =>
    if a = 0 then { addr := 0, block := some 0 } else { addr := LTOP_EMPTY, block := none }
  shadow_map := fun a =>
    if a = 0 then { addr := 5, block := some 1 } else { addr := LTOP_EMPTY, block := none }
  pool_is_active := fun p => p = 0

/-- Witness for the amended C7: with a populated shadow and an active
primary pool, the lookup serves the shadow entry. -/
theorem C7_witness :
    openssd_latency_lookup_ltop lat_demo_with_shadow 0 =
      (LookupSource.shadow, { addr := 5, block := some 1 }) :=
  ((C7_latency_lookup_amended lat_demo_with_shadow 0).2 (by decide)).1 (by decide)

/-! ## Host entry point (dm-openssd-mod.c) -/

/-- Result of the device-mapper `map` callback `nvm_map`. -/
inductive DmMapResult where
  | ioError
  | requeue
  | writeDispatched
  | readDispatched
deriving DecidableEq, Repr

/-- `nvm_map` (dm-openssd-mod.c): fail out-of-range requests with
`bio_io_error` (a permanent per-request error), bounce writes that are not
exactly `NR_PHY_IN_LOG` sectors with `DM_MAPIO_REQUEUE` (transient, the
block layer retries), and otherwise dispatch to the strategy's
`write_bio` / `read_bio`. -/
def nvm_map (nr_pages bi_sector bio_sectors : Nat) (is_write : Bool) : DmMapResult :=
  if bi_sector / NR_PHY_IN_LOG ≥ nr_pages then DmMapResult.ioError
  else if is_write then
    if bio_sectors ≠ NR_PHY_IN_LOG then DmMapResult.requeue
    else DmMapResult.writeDispatched
  else DmMapResult.readDispatched

/-- C8 counterexample: a wrong-sized write whose sector is also out of
range is completed with `bio_io_error` — a permanent error — rather than
the claimed transient `DM_MAPIO_REQUEUE` (the address check runs first). -/
theorem C8_counterexample :
    16 ≠ NR_PHY_IN_LOG ∧
    nvm_map 4 32 16 true = DmMapResult.ioError ∧
    DmMapResult.ioError ≠ DmMapResult.requeue := by
  decide

/-- C8 (amended): every write request with an in-range logical address
whose size is not exactly `NR_PHY_IN_LOG` sectors (one 4096-byte host
page) is rejected with the transient `DM_MAPIO_REQUEUE` and never reaches
the mapping/write path; out-of-range writes are instead failed with a
permanent I/O error. -/
theorem C8_wrong_size_write_requeued (nr_pages bi_sector bio_sectors : Nat)
    (hrange : bi_sector / NR_PHY_IN_LOG < nr_pages)
    (hsize : bio_sectors ≠ NR_PHY_IN_LOG) :
    nvm_map nr_pages bi_sector bio_sectors true = DmMapResult.requeue := by
  unfold nvm_map
  simp [Nat.not_le_of_lt hrange, hsize]

/-- Witness for C8: a 2-page (16-sector) write at the in-range sector 8 is
requeued. -/
theorem C8_witness : nvm_map 4 8 16 true = DmMapResult.requeue :=
  C8_wrong_size_write_requeued 4 8 16 (by decide) (by decide)

/-! ## Fast-page predicate (dm-openssd.h) -/

/-- `page_is_fast` (dm-openssd.h): pages 0–3 are fast, the last four pages
of the block are slow, and in between each group of four pages has its
slots 2 and 3 fast.  In the C comparison `pagenr >= nr_pages_per_blk - 4`
the subtrahend is computed in `int` (`nr_pages_per_blk` is declared
`int`) and then converted to `unsigned int` to be compared with the
unsigned `pagenr`, i.e. the comparison threshold is
`(nr_pages_per_blk - 4) mod 2^32`; when `nr_pages_per_blk < 4` the
negative difference wraps to a value near `2^32` and the slow-tail test
effectively never fires.  `(nr_pages_per_blk + 2^32 - 4) % 2^32`
reproduces that threshold exactly for the C-representable range
`nr_pages_per_blk < 2^32`. -/
def page_is_fast (pagenr nr_pages_per_blk : Nat) : Bool :=
  if pagenr < 4 then true
  else if pagenr ≥ (nr_pages_per_blk + 2 ^ 32 - 4) % 2 ^ 32 then false
  else
    let p := (pagenr - 4) % 4
    p == 2 || p == 3

/-- C9 counterexample: with K = 4 pages per block, page 0 satisfies
`pagenr ≥ K − 4` yet `page_is_fast` returns true (the `pagenr < 4` test
runs first), so "pages with p ≥ K−4 are never fast" fails. -/
theorem C9_counterexample : page_is_fast 0 4 = true ∧ 4 - 4 ≤ 0 := by
  decide

/-- C9 (amended): for `4 ≤ K` (with `p` and `K` in the C 32-bit range),
`page_is_fast p K` is true iff `p < 4`, or `p < K−4` and
`(p−4) mod 4 ∈ {2,3}`, and pages with `4 ≤ p` and `p ≥ K−4` are never
fast; for `K < 4` the signed difference `K−4` wraps to a threshold near
`2^32`, so every page `4 ≤ p` below that threshold is classified by the
modulo test alone. -/
theorem C9_page_is_fast_spec :
    (∀ p K, 4 ≤ K → K < 2 ^ 32 → p < 2 ^ 32 →
      (page_is_fast p K = true ↔
        (p < 4 ∨ (p < K - 4 ∧ ((p - 4) % 4 = 2 ∨ (p - 4) % 4 = 3))))) ∧
    (∀ p K, 4 ≤ K → K < 2 ^ 32 → p < 2 ^ 32 → 4 ≤ p → K - 4 ≤ p →
      page_is_fast p K = false) ∧
    (∀ p K, K < 4 → 4 ≤ p → p < K + 2 ^ 32 - 4 →
      page_is_fast p K = ((p - 4) % 4 == 2 || (p - 4) % 4 == 3)) := by
  refine ⟨?_, ?_, ?_⟩
  · intro p K hK4 hK hp
    unfold page_is_fast
    have hT : (K + 2 ^ 32 - 4) % 2 ^ 32 = K - 4 := by omega
    rw [hT]
    by_cases h1 : p < 4
    · simp [h1]
    · by_cases h2 : p ≥ K - 4
      · simp [h1, h2]
      · simp [h1, h2]
        omega
  · intro p K hK4 hK hp h4 hge
    unfold page_is_fast
    have hT : (K + 2 ^ 32 - 4) % 2 ^ 32 = K - 4 := by omega
    rw [hT]
    simp [Nat.not_lt_of_le h4, hge]
  · intro p K hK h4 hp
    unfold page_is_fast
    have hT : (K + 2 ^ 32 - 4) % 2 ^ 32 = K + 2 ^ 32 - 4 := by omega
    rw [hT, if_neg (by omega), if_neg (by omega)]

/-- Witness for C6 at a concrete cursor: a block of 4 flash pages whose
cursor sits at `(next_page, next_offset) = (4, 0)` is full. -/
theorem C6_witness :
    block_is_full 4 0 (NR_HOST_PAGES_IN_FLASH_PAGE * 4) = true ↔
      4 * NR_HOST_PAGES_IN_FLASH_PAGE + 0 = 4 * NR_HOST_PAGES_IN_FLASH_PAGE :=
  C6_block_is_full_amended 4 0 4

/-- Witness for C9: page 5 of an 8-page block lies in the trailing slow
region and is not fast, while in a degenerate 3-page block page 6 falls
through the wrapped slow-tail test to the modulo classification. -/
theorem C9_witness :
    page_is_fast 5 8 = false ∧
    page_is_fast 6 3 = ((6 - 4) % 4 == 2 || (6 - 4) % 4 == 3) :=
  ⟨C9_page_is_fast_spec.2.1 5 8 (by decide) (by decide) (by decide) (by decide) (by decide),
   C9_page_is_fast_spec.2.2 6 3 (by decide) (by decide) (by decide)⟩

/-! ## Garbage-collector victim selection (src/unnamed/part_002) -/

/-- The per-block fields consulted by GC victim selection. -/
structure GcBlock where
  id : Nat
  nr_invalid_pages : Nat
deriving DecidableEq, Repr

/-- `block_max_invalid` (src/unnamed/part_002): keep `a` on ties, otherwise
the block with more invalid pages. -/
def block_max_invalid (a b : GcBlock) : GcBlock :=
  if a.nr_invalid_pages = b.nr_invalid_pages then a
  else if a.nr_invalid_pages < b.nr_invalid_pages then b else a

/-- `block_prio_find_max` (src/unnamed/part_002): start from the first
entry and fold `block_max_invalid` over the whole list (the C loop
revisits the first entry, which is a no-op); `none` models the
`BUG_ON(list_empty(list))`. -/
def block_prio_find_max : List GcBlock → Option GcBlock
  | [] => none
  | x :: xs => some (List.foldl block_max_invalid x (x :: xs))

/-- The `while` loop of `nvm_gc_collect` (src/unnamed/part_002): as long as
`need > nr_free_blocks` and the priority list is non-empty, pick the block
with the most invalid pages; stop if it has none, otherwise unlink it from
the priority list and hand it to the GC worker.  `nr_free_blocks` is not
changed by the loop (blocks return to the free list asynchronously), so
one unit of fuel per initial list entry is enough. -/
def gc_loop (need nr_free_blocks : Nat) : Nat → List GcBlock → List GcBlock × List GcBlock
  | 0, prio => ([], prio)
  | fuel + 1, prio =>
    if need > nr_free_blocks ∧ prio ≠ [] then
      match block_prio_find_max prio with
      | none => ([], prio)
      | some m =>
        if m.nr_invalid_pages = 0 then ([], prio)
        else
          let r := gc_loop need nr_free_blocks fuel (prio.erase m)
          (m :: r.1, r.2)
    else ([], prio)

/-- `nvm_gc_collect` (src/unnamed/part_002): one per-pool GC pass; returns
the victims handed to the GC worker and the remaining priority list.  The
source computes `nr_blocks_need = pool->nr_blocks / 10`, the divisor being
`GC_LIMIT_INVERSE`. -/
def nvm_gc_collect (nr_blocks nr_free_blocks : Nat) (prio : List GcBlock) :
    List GcBlock × List GcBlock :=
  gc_loop (nr_blocks / GC_LIMIT_INVERSE) nr_free_blocks prio.length prio

lemma bmax_self (a : GcBlock) : block_max_invalid a a = a := by
  simp [block_max_invalid]

lemma bmax_choice (a b : GcBlock) :
    block_max_invalid a b = a ∨ block_max_invalid a b = b := by
  unfold block_max_invalid
  split_ifs <;> simp

lemma bmax_ge_left (a b : GcBlock) :
    a.nr_invalid_pages ≤ (block_max_invalid a b).nr_invalid_pages := by
  unfold block_max_invalid
  split_ifs <;> omega

lemma bmax_ge_right (a b : GcBlock) :
    b.nr_invalid_pages ≤ (block_max_invalid a b).nr_invalid_pages := by
  unfold block_max_invalid
  split_ifs <;> omega

lemma foldl_bmax_mem (x : GcBlock) (xs : List GcBlock) :
    List.foldl block_max_invalid x xs ∈ x :: xs := by
  induction xs generalizing x with
  | nil => simp
  | cons y ys ih =>
    rw [List.foldl_cons]
    have hm := ih (block_max_invalid x y)
    rcases List.mem_cons.mp hm with h | h
    · rw [h]
      rcases bmax_choice x y with h2 | h2 <;> rw [h2]
      · exact List.mem_cons_self _ _
      · exact List.mem_cons_of_mem _ (List.mem_cons_self _ _)
    · exact List.mem_cons_of_mem _ (List.mem_cons_of_mem _ h)

lemma foldl_bmax_ge_acc (x : GcBlock) (xs : List GcBlock) :
    x.nr_invalid_pages ≤ (List.foldl block_max_invalid x xs).nr_invalid_pages := by
  induction xs generalizing x with
  | nil => simp
  | cons y ys ih =>
    rw [List.foldl_cons]
    exact le_trans (bmax_ge_left x y) (ih (block_max_invalid x y))

lemma foldl_bmax_ge (x : GcBlock) (xs : List GcBlock) :
    ∀ b ∈ x :: xs, b.nr_invalid_pages ≤ (List.foldl block_max_invalid x xs).nr_invalid_pages := by
  induction xs generalizing x with
  | nil =>
    intro b hb
    simp at hb
    subst hb
    simp
  | cons y ys ih =>
    intro b hb
    rw [List.foldl_cons]
    rcases List.mem_cons.mp hb with rfl | hb'
    · exact le_trans (bmax_ge_left b y) (foldl_bmax_ge_acc _ ys)
    · rcases List.mem_cons.mp hb' with rfl | hb''
      · exact le_trans (bmax_ge_right x b) (foldl_bmax_ge_acc _ ys)
      · exact ih (block_max_invalid x y) b (List.mem_cons_of_mem _ hb'')

lemma find_max_mem {l : List GcBlock} {m : GcBlock}
    (h : block_prio_find_max l = some m) : m ∈ l := by
  cases l with
  | nil => simp [block_prio_find_max] at h
  | cons x xs =>
    simp only [block_prio_find_max, Option.some_inj] at h
    subst h
    rw [List.foldl_cons, bmax_self]
    exact foldl_bmax_mem x xs

lemma find_max_ge {l : List GcBlock} {m : GcBlock}
    (h : block_prio_find_max l = some m) :
    ∀ b ∈ l, b.nr_invalid_pages ≤ m.nr_invalid_pages := by
  cases l with
  | nil => simp [block_prio_find_max] at h
  | cons x xs =>
    simp only [block_prio_find_max, Option.some_inj] at h
    subst h
    rw [List.foldl_cons, bmax_self]
    exact foldl_bmax_ge x xs

lemma find_max_cons (x : GcBlock) (xs : List GcBlock) :
    block_prio_find_max (x :: xs) = some (List.foldl block_max_invalid x xs) := by
  simp [block_prio_find_max, List.foldl_cons, bmax_self]

lemma gc_loop_spec (need nf : Nat) :
    ∀ (fuel : Nat) (prio : List GcBlock), prio.length ≤ fuel →
      (∀ v ∈ (gc_loop need nf fuel prio).1, 0 < v.nr_invalid_pages ∧ v ∈ prio) ∧
      (∀ b ∈ (gc_loop need nf fuel prio).2, b ∈ prio) ∧
      (gc_loop need nf fuel prio).1.length + (gc_loop need nf fuel prio).2.length
          = prio.length ∧
      (∀ v ∈ (gc_loop need nf fuel prio).1, ∀ b ∈ (gc_loop need nf fuel prio).2,
          b.nr_invalid_pages ≤ v.nr_invalid_pages) ∧
      List.Pairwise (fun a b => b.nr_invalid_pages ≤ a.nr_invalid_pages)
          (gc_loop need nf fuel prio).1 ∧
      (¬(need > nf ∧ prio ≠ []) → gc_loop need nf fuel prio = ([], prio)) ∧
      (need > nf → (gc_loop need nf fuel prio).2 ≠ [] →
        ∃ m, block_prio_find_max (gc_loop need nf fuel prio).2 = some m ∧
          m.nr_invalid_pages = 0) := by
  intro fuel
  induction fuel with
  | zero =>
    intro prio hlen
    have hnil : prio = [] := List.eq_nil_of_length_eq_zero (Nat.le_zero.mp hlen)
    subst hnil
    simp [gc_loop]
  | succ fuel ih =>
    intro prio hlen
    by_cases hc : need > nf ∧ prio ≠ []
    · obtain ⟨hneed, hne⟩ := hc
      obtain ⟨x, xs, rfl⟩ : ∃ x xs, prio = x :: xs := by
        cases prio with
        | nil => exact absurd rfl hne
        | cons x xs => exact ⟨x, xs, rfl⟩
      have hstep : gc_loop need nf (fuel + 1) (x :: xs) =
          (if (List.foldl block_max_invalid x xs).nr_invalid_pages = 0 then
            ([], x :: xs)
          else
            let r := gc_loop need nf fuel ((x :: xs).erase (List.foldl block_max_invalid x xs))
            (List.foldl block_max_invalid x xs :: r.1, r.2)) := by
        rw [gc_loop, if_pos ⟨hneed, hne⟩, find_max_cons]
      set M := List.foldl block_max_invalid x xs with hM
      have hMmem : M ∈ x :: xs := find_max_mem (find_max_cons x xs)
      have hMmax : ∀ b ∈ x :: xs, b.nr_invalid_pages ≤ M.nr_invalid_pages :=
        find_max_ge (find_max_cons x xs)
      by_cases hz : M.nr_invalid_pages = 0
      · rw [if_pos hz] at hstep
        rw [hstep]
        refine ⟨by simp, by simp, by simp, by simp, by simp, ?_, ?_⟩
        · intro h
          exact absurd ⟨hneed, hne⟩ h
        · intro _ _
          exact ⟨M, find_max_cons x xs, hz⟩
      · rw [if_neg hz] at hstep
        have hlen' : ((x :: xs).erase M).length ≤ fuel := by
          rw [List.length_erase_of_mem hMmem]
          simp only [List.length_cons] at hlen ⊢
          omega
        obtain ⟨ih1, ih2, ih3, ih4, ih5, _, ih7⟩ := ih ((x :: xs).erase M) hlen'
        rw [hstep]
        simp only
        refine ⟨?_, ?_, ?_, ?_, ?_, ?_, ?_⟩
        · intro v hv
          rcases List.mem_cons.mp hv with rfl | hv'
          · exact ⟨Nat.pos_of_ne_zero hz, hMmem⟩
          · obtain ⟨hpos, hmem⟩ := ih1 v hv'
            exact ⟨hpos, List.mem_of_mem_erase hmem⟩
        · intro b hb
          exact List.mem_of_mem_erase (ih2 b hb)
        · simp only [List.length_cons]
          rw [List.length_erase_of_mem hMmem] at ih3
          simp only [List.length_cons] at ih3 ⊢
          omega
        · intro v hv b hb
          rcases List.mem_cons.mp hv with rfl | hv'
          · exact hMmax b (List.mem_of_mem_erase (ih2 b hb))
          · exact ih4 v hv' b hb
        · refine List.pairwise_cons.mpr ⟨?_, ih5⟩
          intro v hv
          exact hMmax v (List.mem_of_mem_erase (ih1 v hv).2)
        · intro h
          exact absurd ⟨hneed, hne⟩ h
        · intro _ hne2
          exact ih7 hneed hne2
    · have hstep : gc_loop need nf (fuel + 1) prio = ([], prio) := by
        rw [gc_loop, if_neg hc]
      rw [hstep]
      refine ⟨by simp, by simp, by simp, by simp, by simp, fun _ => rfl, ?_⟩
      intro hneed hne2
      push_neg at hc
      exact absurd (hc hneed) hne2

/-- C4: a per-pool GC pass computes `need = nr_blocks / 10` and, while
`need > nr_free_blocks` and the priority list is non-empty, removes from
the priority list and selects as victim a block with the maximum
`nr_invalid_pages` of the then-current priority list; it never selects a
block with zero invalid pages, and when it stops with the while-condition
still true the remaining priority list's maximum has zero invalid pages. -/
theorem C4_gc_victim_selection (nr_blocks nr_free_blocks : Nat) (prio : List GcBlock) :
    (∀ v ∈ (nvm_gc_collect nr_blocks nr_free_blocks prio).1,
        0 < v.nr_invalid_pages ∧ v ∈ prio) ∧
    (nr_blocks / GC_LIMIT_INVERSE ≤ nr_free_blocks →
        nvm_gc_collect nr_blocks nr_free_blocks prio = ([], prio)) ∧
    (∀ b ∈ (nvm_gc_collect nr_blocks nr_free_blocks prio).2, b ∈ prio) ∧
    (nvm_gc_collect nr_blocks nr_free_blocks prio).1.length +
        (nvm_gc_collect nr_blocks nr_free_blocks prio).2.length = prio.length ∧
    (∀ v ∈ (nvm_gc_collect nr_blocks nr_free_blocks prio).1,
        ∀ b ∈ (nvm_gc_collect nr_blocks nr_free_blocks prio).2,
          b.nr_invalid_pages ≤ v.nr_invalid_pages) ∧
    List.Pairwise (fun a b => b.nr_invalid_pages ≤ a.nr_invalid_pages)
        (nvm_gc_collect nr_blocks nr_free_blocks prio).1 ∧
    (nr_free_blocks < nr_blocks / GC_LIMIT_INVERSE →
      (nvm_gc_collect nr_blocks nr_free_blocks prio).2 ≠ [] →
        ∃ m, block_prio_find_max (nvm_gc_collect nr_blocks nr_free_blocks prio).2 = some m ∧
          m.nr_invalid_pages = 0) := by
  obtain ⟨h1, h2, h3, h4, h5, h6, h7⟩ :=
    gc_loop_spec (nr_blocks / GC_LIMIT_INVERSE) nr_free_blocks prio.length prio le_rfl
  refine ⟨h1, ?_, h2, h3, h4, h5, h7⟩
  intro hle
  exact h6 (by omega)

/-- The demo priority list for the GC witness. -/
def gc_demo_prio : List GcBlock := [⟨0, 2⟩, ⟨1, 5⟩, ⟨2, 0⟩]

/-- Witness for C4: with `nr_blocks = 20` and 5 free blocks the threshold
`need = 2` is met, so the pass selects nothing and leaves the priority
list untouched. -/
theorem C4_witness :
    nvm_gc_collect 20 5 gc_demo_prio = ([], gc_demo_prio) :=
  (C4_gc_victim_selection 20 5 gc_demo_prio).2.1 (by decide)

/-! ## Physical-page allocation and out-of-place writes
(dm-openssd-core.c `__openssd_alloc_phys_addr`, `openssd_reset_block`,
`openssd_update_map_generic`) -/

/-- A block's write cursor: the next writable flash page and the host-page
offset inside it (dm-openssd.h `struct nvm_block`). -/
structure BlkCursor where
  next_page : Nat
  next_offset : Nat
deriving DecidableEq, Repr

/-- `__openssd_alloc_phys_addr` with `req_fast = 0`, i.e.
`openssd_alloc_phys_addr` (dm-openssd-core.c): under the block lock, fail
with `LTOP_EMPTY` (`none`) when the block is full; otherwise advance to the
next flash page when the intra-page offset has wrapped, hand out
`block_to_addr(block) + next_page·H + next_offset` (dm-openssd.h
`block_to_addr` is `id * nr_host_pages_in_blk`), and bump the offset. -/
def openssd_alloc_phys_addr (nr_host_pages_in_blk bid : Nat) (c : BlkCursor) :
    Option (Nat × BlkCursor) :=
  if block_is_full c.next_page c.next_offset nr_host_pages_in_blk then none
  else
    let c1 :=
      if c.next_offset = NR_HOST_PAGES_IN_FLASH_PAGE then
        BlkCursor.mk (c.next_page + 1) 0
      else c
    let addr := bid * nr_host_pages_in_blk +
      c1.next_page * NR_HOST_PAGES_IN_FLASH_PAGE + c1.next_offset
    some (addr, BlkCursor.mk c1.next_page (c1.next_offset + 1))

/-- The FTL state a write interacts with: each block's write cursor and the
forward map recording where each logical address was last mapped. -/
structure FtlState where
  cursors : Nat → BlkCursor
  trans_map : Nat → Option Nat

/-- Events of the write/GC lifecycle: a completed write of logical address
`l_addr` placed on block `bid` (allocation via `openssd_alloc_phys_addr`
followed by the forward-map update of `openssd_update_map_generic`), and
the erase-и-reuse of a block (`openssd_reset_block`, which zeroes
`next_page` and `next_offset` when `nvm_pool_get_block` re-issues it). -/
inductive FtlEvent where
  | write (l_addr bid : Nat)
  | reset (bid : Nat)
deriving DecidableEq, Repr

/-- One event step; `none` when the allocation fails (`LTOP_EMPTY`). -/
def ftl_apply (nr_host_pages_in_blk : Nat) (s : FtlState) (e : FtlEvent) : Option FtlState :=
  match e with
  | FtlEvent.write l bid =>
    match openssd_alloc_phys_addr nr_host_pages_in_blk bid (s.cursors bid) with
    | none => none
    | some (addr, c') =>
      some { cursors := fun i => if i = bid then c' else s.cursors i
             trans_map := fun a => if a = l then some addr else s.trans_map a }
  | FtlEvent.reset bid =>
    some { s with cursors := fun i => if i = bid then BlkCursor.mk 0 0 else s.cursors i }

/-- Run a sequence of events. -/
def ftl_run (nr_host_pages_in_blk : Nat) (s : FtlState) : List FtlEvent → Option FtlState
  | [] => some s
  | e :: tr =>
    match ftl_apply nr_host_pages_in_blk s e with
    | none => none
    | some s' => ftl_run nr_host_pages_in_blk s' tr

/-- The host-page index a cursor stands at inside its block. -/
def cursor_val (c : BlkCursor) : Nat :=
  c.next_page * NR_HOST_PAGES_IN_FLASH_PAGE + c.next_offset

/-- The cursor is well formed: the intra-flash-page offset never exceeds
`NR_HOST_PAGES_IN_FLASH_PAGE` and the cursor has not run past the block. -/
def cursor_ok (nr_host_pages_in_blk : Nat) (c : BlkCursor) : Prop :=
  c.next_offset ≤ NR_HOST_PAGES_IN_FLASH_PAGE ∧ cursor_val c ≤ nr_host_pages_in_blk

/-- All block cursors are well formed. -/
def cursors_ok (nr_host_pages_in_blk : Nat) (s : FtlState) : Prop :=
  ∀ bid, cursor_ok nr_host_pages_in_blk (s.cursors bid)

lemma H_one : NR_HOST_PAGES_IN_FLASH_PAGE = 1 := rfl

/-- What a successful allocation returns: the block-relative slot is the
cursor's current host-page index, it lies inside the block, and the cursor
advances by exactly one host page. -/
lemma alloc_some_spec (KH bid : Nat) (c : BlkCursor) (addr : Nat) (c' : BlkCursor)
    (hok : cursor_ok KH c)
    (h : openssd_alloc_phys_addr KH bid c = some (addr, c')) :
    addr = bid * KH + cursor_val c ∧ cursor_val c < KH ∧
    cursor_val c' = cursor_val c + 1 ∧ cursor_ok KH c' := by
  obtain ⟨pg, off⟩ := c
  obtain ⟨hoff, hval⟩ := hok
  unfold cursor_val at hval ⊢
  simp only [H_one] at hoff hval ⊢
  unfold openssd_alloc_phys_addr at h
  by_cases hf : block_is_full pg off KH = true
  · rw [if_pos hf] at h
    simp at h
  · rw [if_neg hf] at h
    unfold block_is_full at hf
    simp only [beq_iff_eq] at hf
    simp only [H_one] at hf
    simp only [H_one] at h
    by_cases ho : off = 1
    · rw [if_pos ho] at h
      simp only [Option.some_inj, Prod.mk.injEq] at h
      obtain ⟨ha, hc⟩ := h
      subst ha
      subst hc
      refine ⟨by omega, by omega, ?_, ?_, ?_⟩
      · simp only [cursor_val, H_one]
        omega
      · simp [H_one]
      · simp only [cursor_val, H_one]
        omega
    · rw [if_neg ho] at h
      simp only [Option.some_inj, Prod.mk.injEq] at h
      obtain ⟨ha, hc⟩ := h
      subst ha
      subst hc
      refine ⟨by omega, by omega, ?_, ?_, ?_⟩
      · simp only [cursor_val, H_one]
        omega
      · simp only [H_one]
        omega
      · simp only [cursor_val, H_one]
        omega

/-- One event keeps every cursor well formed. -/
lemma apply_preserves_ok (KH : Nat) (s : FtlState) (e : FtlEvent) (s' : FtlState)
    (hok : cursors_ok KH s) (h : ftl_apply KH s e = some s') : cursors_ok KH s' := by
  cases e with
  | write l bid =>
    unfold ftl_apply at h
    dsimp only at h
    cases halloc : openssd_alloc_phys_addr KH bid (s.cursors bid) with
    | none =>
      rw [halloc] at h
      exact absurd h (by simp)
    | some ac =>
      obtain ⟨addr, c'⟩ := ac
      rw [halloc] at h
      simp only [Option.some_inj] at h
      subst h
      intro b
      dsimp only
      by_cases hb : b = bid
      · rw [if_pos hb]
        exact (alloc_some_spec KH bid _ addr c' (hok bid) halloc).2.2.2
      · rw [if_neg hb]
        exact hok b
  | reset bid =>
    unfold ftl_apply at h
    dsimp only at h
    simp only [Option.some_inj] at h
    subst h
    intro b
    dsimp only
    by_cases hb : b = bid
    · rw [if_pos hb]
      exact ⟨by simp [H_one], by simp [cursor_val]⟩
    · rw [if_neg hb]
      exact hok b

/-- Running a trace keeps every cursor well formed. -/
lemma run_preserves_ok (KH : Nat) :
    ∀ (tr : List FtlEvent) (s s' : FtlState),
      cursors_ok KH s → ftl_run KH s tr = some s' → cursors_ok KH s' := by
  intro tr
  induction tr with
  | nil =>
    intro s s' hok h
    unfold ftl_run at h
    simp only [Option.some_inj] at h
    subst h
    exact hok
  | cons e tr ih =>
    intro s s' hok h
    unfold ftl_run at h
    cases happ : ftl_apply KH s e with
    | none =>
      rw [happ] at h
      exact absurd h (by simp)
    | some s1 =>
      rw [happ] at h
      exact ih s1 s' (apply_preserves_ok KH s e s1 hok happ) h

/-- An event other than a reset of block `b` never moves `b`'s cursor
backwards. -/
lemma apply_cursor_mono (KH : Nat) (s : FtlState) (e : FtlEvent) (s' : FtlState) (b : Nat)
    (hok : cursors_ok KH s) (h : ftl_apply KH s e = some s')
    (hne : e ≠ FtlEvent.reset b) :
    cursor_val (s.cursors b) ≤ cursor_val (s'.cursors b) := by
  cases e with
  | write l bid =>
    unfold ftl_apply at h
    dsimp only at h
    cases halloc : openssd_alloc_phys_addr KH bid (s.cursors bid) with
    | none =>
      rw [halloc] at h
      exact absurd h (by simp)
    | some ac =>
      obtain ⟨addr, c'⟩ := ac
      rw [halloc] at h
      simp only [Option.some_inj] at h
      subst h
      dsimp only
      by_cases hb : b = bid
      · subst hb
        rw [if_pos rfl]
        have hspec := alloc_some_spec KH b _ addr c' (hok b) halloc
        omega
      · rw [if_neg hb]
  | reset bid =>
    have hbid : ¬ b = bid := by
      intro he
      exact hne (by rw [he])
    unfold ftl_apply at h
    dsimp only at h
    simp only [Option.some_inj] at h
    subst h
    dsimp only
    rw [if_neg hbid]

/-- Over a trace containing no reset of block `b`, `b`'s cursor is
monotone. -/
lemma run_cursor_mono (KH : Nat) :
    ∀ (tr : List FtlEvent) (s s' : FtlState) (b : Nat),
      cursors_ok KH s → ftl_run KH s tr = some s' → FtlEvent.reset b ∉ tr →
      cursor_val (s.cursors b) ≤ cursor_val (s'.cursors b) := by
  intro tr
  induction tr with
  | nil =>
    intro s s' b _ h _
    unfold ftl_run at h
    simp only [Option.some_inj] at h
    subst h
    exact le_refl _
  | cons e tr ih =>
    intro s s' b hok h hnr
    unfold ftl_run at h
    cases happ : ftl_apply KH s e with
    | none =>
      rw [happ] at h
      exact absurd h (by simp)
    | some s1 =>
      rw [happ] at h
      have hne : e ≠ FtlEvent.reset b := by
        intro he
        exact hnr (he ▸ List.mem_cons_self _ _)
      have hstep := apply_cursor_mono KH s e s1 b hok happ hne
      have hrest := ih s1 s' b (apply_preserves_ok KH s e s1 hok happ) h
        (fun hm => hnr (List.mem_cons_of_mem _ hm))
      exact le_trans hstep hrest

/-- C3: out-of-place writes — two consecutive completed writes of the same
logical address L land at distinct physical addresses, as long as the block
that served the first write is not erased and reused (reset) in between.
`tr1` is any prefix history from a well-formed state, `tr2` the events
between the two writes. -/
theorem C3_out_of_place_writes (KH : Nat) (s0 s1 s2 s3 s4 : FtlState)
    (tr1 tr2 : List FtlEvent) (l b1 b2 : Nat)
    (hok0 : cursors_ok KH s0)
    (h1 : ftl_run KH s0 tr1 = some s1)
    (hw1 : ftl_apply KH s1 (FtlEvent.write l b1) = some s2)
    (h2 : ftl_run KH s2 tr2 = some s3)
    (hw2 : ftl_apply KH s3 (FtlEvent.write l b2) = some s4)
    (hconsec : ∀ b, FtlEvent.write l b ∉ tr2)
    (hnoreset : FtlEvent.reset b1 ∉ tr2) :
    ∃ a1 a2, s2.trans_map l = some a1 ∧ s4.trans_map l = some a2 ∧ a1 ≠ a2 := by
  have hok1 := run_preserves_ok KH tr1 s0 s1 hok0 h1
  have hok2 := apply_preserves_ok KH s1 (FtlEvent.write l b1) s2 hok1 hw1
  have hok3 := run_preserves_ok KH tr2 s2 s3 hok2 h2
  have hmono := run_cursor_mono KH tr2 s2 s3 b1 hok2 h2 hnoreset
  unfold ftl_apply at hw1 hw2
  dsimp only at hw1 hw2
  cases halloc1 : openssd_alloc_phys_addr KH b1 (s1.cursors b1) with
  | none =>
    rw [halloc1] at hw1
    exact absurd hw1 (by simp)
  | some ac1 =>
    obtain ⟨a1, c1'⟩ := ac1
    rw [halloc1] at hw1
    simp only [Option.some_inj] at hw1
    obtain ⟨ha1e, hv1lt, hval1, _⟩ := alloc_some_spec KH b1 _ a1 c1' (hok1 b1) halloc1
    cases halloc2 : openssd_alloc_phys_addr KH b2 (s3.cursors b2) with
    | none =>
      rw [halloc2] at hw2
      exact absurd hw2 (by simp)
    | some ac2 =>
      obtain ⟨a2, c2'⟩ := ac2
      rw [halloc2] at hw2
      simp only [Option.some_inj] at hw2
      obtain ⟨ha2e, hv2lt, hval2, _⟩ := alloc_some_spec KH b2 _ a2 c2' (hok3 b2) halloc2
      have hs2c : s2.cursors b1 = c1' := by
        rw [← hw1]
        dsimp only
        rw [if_pos rfl]
      refine ⟨a1, a2, ?_, ?_, ?_⟩
      · rw [← hw1]
        dsimp only
        rw [if_pos rfl]
      · rw [← hw2]
        dsimp only
        rw [if_pos rfl]
      · have hKH : 0 < KH := Nat.lt_of_le_of_lt (Nat.zero_le _) hv1lt
        rw [hs2c] at hmono
        by_cases hb : b2 = b1
        · subst hb
          omega
        · intro he
          have hd1 : a1 / KH = b1 := by
            rw [ha1e, Nat.mul_comm b1 KH, Nat.mul_add_div hKH,
              Nat.div_eq_of_lt hv1lt, Nat.add_zero]
          have hd2 : a2 / KH = b2 := by
            rw [ha2e, Nat.mul_comm b2 KH, Nat.mul_add_div hKH,
              Nat.div_eq_of_lt hv2lt, Nat.add_zero]
          rw [he] at hd1
          rw [hd1] at hd2
          exact hb hd2.symm

/-- The empty FTL state: all cursors at the start of their blocks, no
logical address mapped. -/
def ftl_init : FtlState where
  cursors := fun _ => BlkCursor.mk 0 0
  trans_map := fun _ => none

/-- State after the first write of L=0 on block 0 (4 host pages per
block): slot 0 consumed. -/
def c3_s2 : FtlState where
  cursors := fun i => if i = 0 then BlkCursor.mk 0 1 else ftl_init.cursors i
  trans_map := fun a => if a = 0 then some 0 else ftl_init.trans_map a

/-- State after the second write of L=0 on block 0: slot 1 consumed. -/
def c3_s4 : FtlState where
  cursors := fun i => if i = 0 then BlkCursor.mk 1 1 else c3_s2.cursors i
  trans_map := fun a => if a = 0 then some 1 else c3_s2.trans_map a

/-- Witness for C3: two back-to-back writes of L=0 on block 0 land on
physical pages 0 and 1, which differ. -/
theorem C3_witness :
    ∃ a1 a2, c3_s2.trans_map 0 = some a1 ∧ c3_s4.trans_map 0 = some a2 ∧ a1 ≠ a2 :=
  C3_out_of_place_writes 4 ftl_init ftl_init c3_s2 c3_s2 c3_s4 [] [] 0 0 0
    (fun _ => ⟨Nat.zero_le _, Nat.zero_le _⟩)
    rfl rfl rfl rfl
    (fun _ => by simp)
    (by simp)
